import Mathlib

set_option maxRecDepth 8000

/-!
Shallow embedding of the fund-trend detection core
(`backend/services/backtester.py` and `backend/services/indicators.py`).

Conventions of the embedding:
* Python floats are modelled as `ℚ`; the only genuinely irrational quantity
  (the volatility standard deviation in `indicators.py`) is modelled in `ℝ`.
* Python's `round(x, d)` rounds half to even; `pyRound` mirrors that on `ℚ`.
* `scipy.stats.linregress` on fewer than two points (or on a constant x-vector)
  yields NaN (or raises on empty input); such degenerate regressions are
  modelled by `Option ℚ` with `none` for the NaN/error outcome, and every
  comparison with `none` is `false`, matching IEEE NaN comparison semantics.
* `float('inf')` appears only as the acceleration of a surge; accelerations are
  therefore also `Option ℚ`, with `none` denoting `+∞` (and `none > c` true).
* Python `while` loops that advance an index are modelled by structural
  recursion, either on the remaining suffix of the scanned list or on an
  explicit iteration count equal to the number of iterations of the Python
  `for ... in range(...)` loop; `detect_phases`'s outer `while` uses a fuel
  that bounds its iteration count (the cursor strictly increases each
  iteration, so `len(prices)` iterations always suffice).
* The database accessors (`get_timeseries`, `list_instruments`) are external
  collaborators; the series and instrument list are passed as parameters.
-/

/-! ### Basic list access helpers -/

/-- Indexing `prices[i]` of a float array, as used by the detectors (all
reads in the source are in range; the default is irrelevant). -/
def pget (l : List ℚ) (i : ℕ) : ℚ := l.getD i 0

/-- Indexing `dates[i]`. -/
def dget (l : List String) (i : ℕ) : String := l.getD i ""

/-- The Python slice `l[s : e+1]`. -/
def pslice (l : List ℚ) (s e : ℕ) : List ℚ := (l.drop s).take (e - s + 1)

/-- Python `max` over a list of window lengths (meaningful for nonempty input,
as in the source where `windows` is never empty). -/
def listMax (l : List ℕ) : ℕ := l.foldl max 0

/-- Arithmetic mean of a list, `np.mean`. -/
def listMean (l : List ℚ) : ℚ := l.sum / (l.length : ℚ)

/-- Running maximum `max(p[s], ..., p[s+d])` of the values from index `s`. -/
def pmaxFrom (p : List ℚ) (s : ℕ) : ℕ → ℚ
  | 0 => pget p s
  | d + 1 => max (pmaxFrom p s d) (pget p (s + d + 1))

/-! ### Python rounding (round half to even) -/

/-- Round to the nearest integer, ties to even — the rounding mode of
Python's builtin `round`. -/
def rhe (x : ℚ) : ℤ :=
  if x - ⌊x⌋ < 1/2 then ⌊x⌋
  else if 1/2 < x - ⌊x⌋ then ⌊x⌋ + 1
  else if 2 ∣ ⌊x⌋ then ⌊x⌋ else ⌊x⌋ + 1

/-- Python `round(x, d)`. -/
def pyRound (d : ℕ) (x : ℚ) : ℚ := (rhe (x * 10 ^ d) : ℚ) / 10 ^ d

/-- A quantity with at most two decimal places, e.g. the default thresholds
`min_gain = 10.0 / 15.0`. -/
def Centi (q : ℚ) : Prop := ∃ z : ℤ, q = (z : ℚ) / 100

/-! ### Data model -/

/-- One element of the series returned by `get_timeseries`. -/
structure Sample where
  date : String
  value : ℚ
deriving DecidableEq

/-- The price vector `prices = np.array([float(d['value']) for d in data])`. -/
def valuesOf (data : List Sample) : List ℚ := data.map (fun s => s.value)

/-- The date vector `dates = [d['date'] for d in data]`. -/
def datesOf (data : List Sample) : List String := data.map (fun s => s.date)

/-- Configuration of `UptrendPhaseDetector.__init__`. -/
structure PhaseCfg where
  max_drawdown_tolerance : ℚ
  min_gain : ℚ
  min_duration : ℕ

/-- Configuration of `SurgeDetector.__init__`. -/
structure SurgeCfg where
  windows : List ℕ
  min_gain : ℚ
  min_slope : ℚ
  acceleration_threshold : ℚ

/-- The `UptrendPhase` dataclass. -/
structure UptrendPhase where
  code : String
  name : String
  start_date : String
  end_date : String
  start_idx : ℕ
  end_idx : ℕ
  duration_days : ℕ
  total_gain : ℚ
  max_drawdown : ℚ
  avg_daily_gain : ℚ
  peak_date : String
  peak_gain : ℚ
  slope_first : ℚ
  slope_second : ℚ
  is_accelerating : Bool
deriving DecidableEq

/-- The `SurgeEvent` dataclass.  The slope fields are `Option ℚ` because a
window of fewer than 4 samples stores a NaN slope (`none`); `acceleration` is
`none` for `+∞`. -/
structure SurgeEvent where
  code : String
  name : String
  start_date : String
  end_date : String
  window : ℕ
  total_gain : ℚ
  slope_first : Option ℚ
  slope_second : Option ℚ
  acceleration : Option ℚ
  is_accelerating : Bool
deriving DecidableEq

/-! ### Segmented slope analyzer -/

/-- The slope of `scipy.stats.linregress(x, y)`: covariance over variance.
`none` models the degenerate cases (fewer than two points, in which scipy
produces NaN, or an empty/constant x-vector, in which it raises). -/
def linSlope (x y : List ℚ) : Option ℚ :=
  let d := (x.map (fun a => (a - listMean x) ^ 2)).sum
  if d = 0 then none
  else some ((((x.zip y).map (fun q => (q.1 - listMean x) * (q.2 - listMean y))).sum) / d)

/-- `np.arange(m)` as rationals. -/
def xIdx (m : ℕ) : List ℚ := (List.range m).map (fun t : ℕ => (t : ℚ))

/-- A NaN-aware strict comparison `s > c` (false when `s` is NaN). -/
def slopeGt (s : Option ℚ) (c : ℚ) : Bool :=
  match s with
  | none => false
  | some q => if c < q then true else false

/-- The acceleration branch of `calculate_segment_slopes`: `slope2 / slope1`
when `slope1 > 0.01`, else `+∞` (`none`) when `slope2 > 0`, else `0`.
When `slope1` is a finite slope the first half has at least two points, hence
so has the second half, so `s2.getD 0` never actually masks a NaN. -/
def accelOf (s1 s2 : Option ℚ) : Option ℚ :=
  if slopeGt s1 (1/100) then some (s2.getD 0 / s1.getD 0)
  else if slopeGt s2 0 then none
  else some 0

/-- Comparison `acceleration > c` where `none` is `+∞`. -/
def accelGt (a : Option ℚ) (c : ℚ) : Bool :=
  match a with
  | none => true
  | some q => if c < q then true else false

/-- `SurgeDetector.calculate_segment_slopes` (no short-input guard): normalize
to percent gain from the first value, split at `n // 2`, regress each half
against its local 0-based index, the second half shifted down by its first
normalized value. -/
def surgeSegSlopes (p : List ℚ) : Option ℚ × Option ℚ × Option ℚ :=
  let n := p.length
  let mid := n / 2
  let y := p.map (fun v => (v / pget p 0 - 1) * 100)
  let s1 := linSlope (xIdx mid) (y.take mid)
  let s2 := linSlope (xIdx (n - mid)) ((y.drop mid).map (fun v => v - pget (y.drop mid) 0))
  (s1, s2, accelOf s1 s2)

/-- `UptrendPhaseDetector._calculate_segment_slopes`: identical to
`surgeSegSlopes` except for the `n < 4` guard returning `(0, 0, 1.0)`;
with `n ≥ 4` both halves have at least two points so both regressions are
defined and the `getD 0` defaults are never taken. -/
def segmentSlopes (p : List ℚ) : ℚ × ℚ × Option ℚ :=
  if p.length < 4 then (0, 0, some 1)
  else ((surgeSegSlopes p).1.getD 0, (surgeSegSlopes p).2.1.getD 0, (surgeSegSlopes p).2.2)

/-- Lift the total triple of `segmentSlopes` into the partial shape of
`surgeSegSlopes`, for comparing the two analyzers. -/
def liftTriple (t : ℚ × ℚ × Option ℚ) : Option ℚ × Option ℚ × Option ℚ :=
  (some t.1, some t.2.1, t.2.2)

/-- Ordinary least squares slope in normal-equation form,
`(n·Σxy − Σx·Σy) / (n·Σx² − (Σx)²)`. -/
def olsSlope (x y : List ℚ) : ℚ :=
  ((x.length : ℚ) * ((x.zip y).map (fun q => q.1 * q.2)).sum - x.sum * y.sum) /
    ((x.length : ℚ) * (x.map (fun a => a ^ 2)).sum - x.sum ^ 2)

/-- The segmented-slope computation as the specification words it: both halves
normalized to percentage gain from their own first value (the second half
relative to its own local baseline `p[mid]`), an OLS line fitted to each half
against its 0-based local index, with the same acceleration cases and `n < 4`
edge case.  (Second, spec-side definition used to compare against the code's
`segmentSlopes`.) -/
def claimedSegmentSlopes (p : List ℚ) : ℚ × ℚ × Option ℚ :=
  if p.length < 4 then (0, 0, some 1)
  else
    let h1 := p.take (p.length / 2)
    let h2 := p.drop (p.length / 2)
    let s1 := olsSlope (xIdx h1.length) (h1.map (fun v => (v / pget h1 0 - 1) * 100))
    let s2 := olsSlope (xIdx h2.length) (h2.map (fun v => (v / pget h2 0 - 1) * 100))
    (s1, s2, if 1/100 < s1 then some (s2 / s1) else if 0 < s2 then none else some 0)

/-- Like `claimedSegmentSlopes` but with the second half rebased by
subtracting the midpoint sample's cumulative gain, keeping the overall first
value as denominator — the normalization the code actually performs. -/
def rebasedSegmentSlopes (p : List ℚ) : ℚ × ℚ × Option ℚ :=
  if p.length < 4 then (0, 0, some 1)
  else
    let h1 := p.take (p.length / 2)
    let h2 := p.drop (p.length / 2)
    let s1 := olsSlope (xIdx h1.length) (h1.map (fun v => (v / pget p 0 - 1) * 100))
    let s2 := olsSlope (xIdx h2.length) (h2.map (fun v => (v - pget h2 0) / pget p 0 * 100))
    (s1, s2, if 1/100 < s1 then some (s2 / s1) else if 0 < s2 then none else some 0)

/-! ### UptrendPhaseDetector -/

/-- Percentage gain `(p[e] - p[s]) / p[s] * 100` between two indices. -/
def gainPct (p : List ℚ) (s e : ℕ) : ℚ := (pget p e - pget p s) / pget p s * 100

/-- `_calculate_max_drawdown`'s loop over all prices. -/
def mddGo : List ℚ → ℚ → ℚ → ℚ
  | [], _, m => m
  | c :: rest, peak, m =>
    mddGo rest (max peak c)
      (if m < (max peak c - c) / max peak c * 100 then (max peak c - c) / max peak c * 100 else m)

/-- `UptrendPhaseDetector._calculate_max_drawdown`. -/
def calcMaxDrawdown (p : List ℚ) : ℚ :=
  if p.length < 2 then 0 else mddGo p (pget p 0) 0

/-- The `for i in range(1, len(prices))` loop of `_find_valid_phase_end`,
walking the suffix `q.drop i` with current running `peak = q[peakIdx]`. -/
def fvGo (tol : ℚ) (qlen : ℕ) : List ℚ → ℕ → ℚ → ℕ → ℕ
  | [], _, _, _ => qlen - 1
  | c :: rest, i, peak, peakIdx =>
    if peak < c then fvGo tol qlen rest (i + 1) c i
    else if tol < (peak - c) / peak * 100 then peakIdx
    else fvGo tol qlen rest (i + 1) peak peakIdx

/-- `UptrendPhaseDetector._find_valid_phase_end`. -/
def findValidPhaseEnd (tol : ℚ) (q : List ℚ) : ℕ :=
  if q.length < 2 then 0 else fvGo tol q.length (q.drop 1) 1 (pget q 0) 0

/-- The inner `while j < len(prices)` loop of `detect_phases`: advance over the
suffix `p.drop j`, updating the running peak, and stop at the first
drawdown-from-peak strictly above `tol`.  Returns `(j, running_peak_idx)` at
the stop (or at the end of the series). -/
def scanAhead (tol : ℚ) : List ℚ → ℕ → ℚ → ℕ → ℕ × ℕ
  | [], j, _, peakIdx => (j, peakIdx)
  | c :: rest, j, peak, peakIdx =>
    if tol < (max peak c - c) / max peak c * 100 then
      (j, if peak < c then j else peakIdx)
    else scanAhead tol rest (j + 1) (max peak c) (if peak < c then j else peakIdx)

/-- The record appended by `detect_phases` for an accepted phase
`[s, e]` (lines 134-150 of the source). -/
def mkPhaseRecord (code name : String) (p : List ℚ) (dates : List String) (s e : ℕ) :
    UptrendPhase :=
  { code := code
    name := name
    start_date := dget dates s
    end_date := dget dates e
    start_idx := s
    end_idx := e
    duration_days := e - s
    total_gain := pyRound 2 (gainPct p s e)
    max_drawdown := pyRound 2 (calcMaxDrawdown (pslice p s e))
    avg_daily_gain := pyRound 3 (gainPct p s e / ((e - s : ℕ) : ℚ))
    peak_date := dget dates e
    peak_gain := pyRound 2 (gainPct p s e)
    slope_first := pyRound 3 (segmentSlopes (pslice p s e)).1
    slope_second := pyRound 3 (segmentSlopes (pslice p s e)).2.1
    is_accelerating := accelGt (segmentSlopes (pslice p s e)).2.2 (13/10) }

/-- The inner scan of `detect_phases` started at ascent start `i`:
`running_peak = prices[i]`, `running_peak_idx = i`, `j = i + 1`.  Its first
component is the stopping `j`, its second the `running_peak_idx`
(the candidate `phase_end`). -/
def scanFromIdx (tol : ℚ) (p : List ℚ) (i : ℕ) : ℕ × ℕ :=
  scanAhead tol (p.drop (i + 1)) (i + 1) (pget p i) i

/-- One iteration of the outer `while i < len(prices) - 1` loop of
`detect_phases`; `next` is the continuation running the rest of the loop. -/
def phaseStep (cfg : PhaseCfg) (code name : String) (p : List ℚ) (dates : List String)
    (next : ℕ → List UptrendPhase) (i : ℕ) : List UptrendPhase :=
  if i + 1 < p.length then
    if pget p (i + 1) ≤ pget p i then next (i + 1)
    else
      if i < (scanFromIdx cfg.max_drawdown_tolerance p i).2 then
        if 0 < findValidPhaseEnd cfg.max_drawdown_tolerance
            (pslice p i (scanFromIdx cfg.max_drawdown_tolerance p i).2) then
          if cfg.min_gain ≤ gainPct p i (i + findValidPhaseEnd cfg.max_drawdown_tolerance
                (pslice p i (scanFromIdx cfg.max_drawdown_tolerance p i).2)) ∧
              cfg.min_duration ≤ findValidPhaseEnd cfg.max_drawdown_tolerance
                (pslice p i (scanFromIdx cfg.max_drawdown_tolerance p i).2) then
            mkPhaseRecord code name p dates i
                (i + findValidPhaseEnd cfg.max_drawdown_tolerance
                  (pslice p i (scanFromIdx cfg.max_drawdown_tolerance p i).2)) ::
              next (max (scanFromIdx cfg.max_drawdown_tolerance p i).1
                ((scanFromIdx cfg.max_drawdown_tolerance p i).2 + 1))
          else next (max (scanFromIdx cfg.max_drawdown_tolerance p i).1
            ((scanFromIdx cfg.max_drawdown_tolerance p i).2 + 1))
        else next (max (scanFromIdx cfg.max_drawdown_tolerance p i).1
          ((scanFromIdx cfg.max_drawdown_tolerance p i).2 + 1))
      else next (max (scanFromIdx cfg.max_drawdown_tolerance p i).1
        ((scanFromIdx cfg.max_drawdown_tolerance p i).2 + 1))
  else []

/-- The outer `while i < len(prices) - 1` loop of `detect_phases`.  The fuel
argument only bounds the number of iterations; the cursor strictly increases
each iteration, so `p.length` fuel always runs the loop to completion. -/
def phaseGo (cfg : PhaseCfg) (code name : String) (p : List ℚ) (dates : List String) :
    ℕ → ℕ → List UptrendPhase
  | 0, _ => []
  | fuel + 1, i => phaseStep cfg code name p dates (phaseGo cfg code name p dates fuel) i

/-- `UptrendPhaseDetector.detect_phases` with the series passed explicitly
(`get_timeseries` is an external collaborator). -/
def detectPhases (cfg : PhaseCfg) (code name : String) (data : List Sample) :
    List UptrendPhase :=
  if data = [] ∨ data.length < cfg.min_duration then []
  else phaseGo cfg code name (valuesOf data) (datesOf data) (valuesOf data).length 0

/-! ### SurgeDetector -/

/-- Total gain of a window, `(prices[-1] / prices[0] - 1) * 100`. -/
def surgeGain (p : List ℚ) : ℚ := (pget p (p.length - 1) / pget p 0 - 1) * 100

/-- The boolean verdict and the `details` dictionary of `SurgeDetector.is_surge`. -/
structure SurgeCheck where
  surge : Bool
  total_gain : ℚ
  slope_first : Option ℚ
  slope_second : Option ℚ
  acceleration : Option ℚ
  avg_slope : ℚ
  is_accelerating : Bool

/-- `SurgeDetector.is_surge`. -/
def isSurge (cfg : SurgeCfg) (p : List ℚ) : SurgeCheck :=
  { surge := (if cfg.min_gain ≤ surgeGain p then true else false) &&
      (if cfg.min_slope ≤ surgeGain p / (p.length : ℚ) then true else false) &&
      slopeGt (surgeSegSlopes p).2.1 0
    total_gain := pyRound 2 (surgeGain p)
    slope_first := (surgeSegSlopes p).1.map (pyRound 3)
    slope_second := (surgeSegSlopes p).2.1.map (pyRound 3)
    acceleration := (surgeSegSlopes p).2.2.map (pyRound 2)
    avg_slope := pyRound 3 (surgeGain p / (p.length : ℚ))
    is_accelerating := accelGt (surgeSegSlopes p).2.2 cfg.acceleration_threshold }

/-- The deduplication key `f"{start_date}_{end_date}"`. -/
def rangeKey (sd ed : String) : String := sd ++ "_" ++ ed

/-- The loop state of `scan_fund`: the `detected_ranges` set and the `events`
list. -/
structure ScanState where
  ranges : List String
  events : List SurgeEvent

/-- The `SurgeEvent` built by `scan_fund` for window `w` ending at index `i`. -/
def mkSurgeEvent (cfg : SurgeCfg) (code name : String) (p : List ℚ) (dates : List String)
    (w i : ℕ) : SurgeEvent :=
  { code := code
    name := name
    start_date := dget dates (i - w)
    end_date := dget dates i
    window := w
    total_gain := (isSurge cfg (pslice p (i - w) i)).total_gain
    slope_first := (isSurge cfg (pslice p (i - w) i)).slope_first
    slope_second := (isSurge cfg (pslice p (i - w) i)).slope_second
    acceleration := (isSurge cfg (pslice p (i - w) i)).acceleration
    is_accelerating := (isSurge cfg (pslice p (i - w) i)).is_accelerating }

/-- One iteration of the `for i in range(window, len(prices))` loop of
`scan_fund`; `next` is the continuation running the rest of the loop. -/
def wStep (cfg : SurgeCfg) (code name : String) (p : List ℚ) (dates : List String) (w : ℕ)
    (next : ℕ → ScanState → ScanState) (i : ℕ) (st : ScanState) : ScanState :=
  if (isSurge cfg (pslice p (i - w) i)).surge then
    if rangeKey (dget dates (i - w)) (dget dates i) ∈ st.ranges then next (i + 1) st
    else
      next (i + 1)
        ⟨rangeKey (dget dates (i - w)) (dget dates i) :: st.ranges,
          st.events ++ [mkSurgeEvent cfg code name p dates w i]⟩
  else next (i + 1) st

/-- The `for i in range(window, len(prices))` loop of `scan_fund`; the first
numeric argument counts the remaining iterations (`len(prices) - window` at
entry). -/
def wGo (cfg : SurgeCfg) (code name : String) (p : List ℚ) (dates : List String) (w : ℕ) :
    ℕ → ℕ → ScanState → ScanState
  | 0, _, st => st
  | k + 1, i, st => wStep cfg code name p dates w (wGo cfg code name p dates w k) i st

/-- Stable insertion of an event into a list sorted ascending by `end_date`. -/
def insertByEnd (e : SurgeEvent) : List SurgeEvent → List SurgeEvent
  | [] => [e]
  | x :: xs => if e.end_date ≤ x.end_date then e :: x :: xs else x :: insertByEnd e xs

/-- `events.sort(key=lambda e: e.end_date)` — Python's sort is stable, as is
this insertion sort. -/
def sortByEnd : List SurgeEvent → List SurgeEvent
  | [] => []
  | x :: xs => insertByEnd x (sortByEnd xs)

/-- `SurgeDetector.scan_fund` with the series passed explicitly. -/
def scanFund (cfg : SurgeCfg) (code name : String) (data : List Sample) : List SurgeEvent :=
  if data.length < listMax cfg.windows + 1 then []
  else
    sortByEnd
      (cfg.windows.foldl
        (fun st w => wGo cfg code name (valuesOf data) (datesOf data) w
          ((valuesOf data).length - w) w st)
        ⟨[], []⟩).events

/-! ### SurgeBacktester -/

/-- One entry of `list_instruments` together with its `get_timeseries` series. -/
structure Instrument where
  code : String
  name : String
  series : List Sample

/-- `SurgeDetector()` default configuration, as constructed by
`SurgeBacktester.__init__`. -/
def defaultSurgeCfg : SurgeCfg := ⟨[10, 20, 30], 15, 3/10, 13/10⟩

/-- `SurgeBacktester.scan_all_funds`: extends the instance's accumulated
`all_events` list with the events of each fund, and returns the new value of
`all_events`. -/
def scanAllFunds (db : List Instrument) (all_events : List SurgeEvent) : List SurgeEvent :=
  db.foldl (fun acc inst => acc ++ scanFund defaultSurgeCfg inst.code inst.name inst.series)
    all_events

/-! ### IndicatorService -/

/-- The result dictionary of `IndicatorService.calculate_indicators`.
`volatility` and `vol_ratio` involve a standard deviation and live in `ℝ`. -/
structure IndicatorResult where
  fund_code : String
  period_days : ℕ
  momentum : ℚ
  relative_strength : ℚ
  index_return : ℚ
  volatility : ℝ
  vol_ratio : ℝ
  analysis : List String
  warning_level : String
  score : ℕ

/-- `IndicatorService._empty_result`. -/
def emptyResult (reason : String) : IndicatorResult :=
  { fund_code := ""
    period_days := 0
    momentum := 0
    relative_strength := 0
    index_return := 0
    volatility := 0
    vol_ratio := 1
    analysis := [reason]
    warning_level := "NONE"
    score := 0 }

/-- `df.tail(n)`. -/
def lastN (n : ℕ) (l : List Sample) : List Sample := l.drop (l.length - n)

/-- `pct_change()` with the leading NaN dropped (pandas `std` skips it). -/
def dailyReturns (v : List ℚ) : List ℚ := (v.zip (v.drop 1)).map (fun q => (q.2 - q.1) / q.1)

/-- Sample variance with `ddof = 1`, as in pandas `Series.std()` squared. -/
def sampleVar (l : List ℚ) : ℚ :=
  ((l.map (fun a => (a - listMean l) ^ 2)).sum) / ((l.length - 1 : ℕ) : ℚ)

/-- Pandas `Series.std()` of a return series, times 100. -/
noncomputable def volOf (rets : List ℚ) : ℝ := Real.sqrt ((sampleVar rets : ℚ) : ℝ) * 100

/-- Round half to even on `ℝ` (for the displayed `volatility` / `vol_ratio`). -/
noncomputable def rheR (x : ℝ) : ℤ :=
  if x - ⌊x⌋ < 1/2 then ⌊x⌋
  else if 1/2 < x - ⌊x⌋ then ⌊x⌋ + 1
  else if 2 ∣ ⌊x⌋ then ⌊x⌋ else ⌊x⌋ + 1

/-- Python `round(x, d)` on `ℝ`. -/
noncomputable def pyRoundR (d : ℕ) (x : ℝ) : ℝ := (rheR (x * 10 ^ d) : ℝ) / 10 ^ d

/-- `IndicatorService.calculate_indicators`, with the fund and benchmark
series passed explicitly (`get_timeseries` is an external collaborator). -/
noncomputable def calculateIndicators (fund_code : String) (fundData indexData : List Sample)
    (days : ℕ) : IndicatorResult :=
  if fundData.length < days + 1 then emptyResult "数据不足"
  else
    let fv := valuesOf (lastN (days + 1) fundData)
    let momentum := (pget fv (fv.length - 1) - pget fv 0) / pget fv 0 * 100
    let index_return : ℚ :=
      if days + 1 ≤ indexData.length then
        let iv := valuesOf (lastN (days + 1) indexData)
        (pget iv (iv.length - 1) - pget iv 0) / pget iv 0 * 100
      else 0
    let rs := momentum - index_return
    let volatility : ℝ := volOf (dailyReturns fv)
    let vol_ratio : ℝ :=
      if (days + 1) * 2 ≤ fundData.length then
        let pv := valuesOf ((lastN ((days + 1) * 2) fundData).take (days + 1))
        if 0 < volOf (dailyReturns pv) then volatility / volOf (dailyReturns pv) else 1
      else 1
    let rsPart : List String × ℕ :=
      if 5 < rs then (["强势跑赢"], 2)
      else if 0 < rs then (["略微跑赢"], 1)
      else (["跑输大盘"], 0)
    let moPart : List String × ℕ :=
      if 10 < momentum then (["上涨动能强"], 2)
      else if 0 < momentum then (["趋势向上"], 1)
      else if momentum < -5 then (["下跌趋势"], 0)
      else ([], 0)
    let volPart : List String × ℕ :=
      if vol_ratio < 6/10 then (["波动压缩(蓄势)"], 2)
      else if vol_ratio < 8/10 then (["波动收窄"], 1)
      else ([], 0)
    { fund_code := fund_code
      period_days := days
      momentum := pyRound 2 momentum
      relative_strength := pyRound 2 rs
      index_return := pyRound 2 index_return
      volatility := pyRoundR 3 volatility
      vol_ratio := pyRoundR 2 vol_ratio
      analysis := rsPart.1 ++ moPart.1 ++ volPart.1
      warning_level :=
        if 4 ≤ rsPart.2 + moPart.2 + volPart.2 then "HIGH"
        else if 2 ≤ rsPart.2 + moPart.2 + volPart.2 then "MEDIUM"
        else "LOW"
      score := rsPart.2 + moPart.2 + volPart.2 }

/-- The three relative-strength labels (the RS rule group always appends
exactly one of them). -/
def rsLabels : List String := ["强势跑赢", "略微跑赢", "跑输大盘"]

/-! ### Concrete series used by witnesses and counterexamples -/

/-- Scenario A of the specification: strictly increasing values
`[100, 102, 104, 106, 108, 110]` over six consecutive days. -/
def dataA : List Sample :=
  [⟨"d0", 100⟩, ⟨"d1", 102⟩, ⟨"d2", 104⟩, ⟨"d3", 106⟩, ⟨"d4", 108⟩, ⟨"d5", 110⟩]

/-- Scenario A configuration: `max_drawdown_tolerance=5, min_gain=5, min_duration=3`. -/
def cfgA : PhaseCfg := ⟨5, 5, 3⟩

/-- The single phase detected on Scenario A. -/
def phaseA : UptrendPhase :=
  ⟨"000001", "T", "d0", "d5", 0, 5, 5, 10, 0, 2, "d5", 10, 2, 2, false⟩

/-- A five-sample series whose last value gives a total gain of `16.0008%`
and a second-half slope of `0.0004` (positive, but rounding to three decimals
records it as `0`). -/
def dataB : List Sample :=
  [⟨"e0", 100⟩, ⟨"e1", 108⟩, ⟨"e2", 116⟩, ⟨"e3", 116⟩, ⟨"e4", 116 + 1/1250⟩]

/-- A surge configuration with a single window of 4 steps and the default
thresholds. -/
def cfgB : SurgeCfg := ⟨[4], 15, 3/10, 13/10⟩

/-- The single surge event detected on `dataB`. -/
def eventB : SurgeEvent :=
  ⟨"000002", "F", "e0", "e4", 4, 16, some 8, some 0, some 0, false⟩

/-- Fallback phase record for `List.headD`. -/
def defPhase : UptrendPhase := ⟨"", "", "", "", 0, 0, 0, 0, 0, 0, "", 0, 0, 0, false⟩

/-- Fallback surge event for `List.headD`. -/
def defEvent : SurgeEvent := ⟨"", "", "", "", 0, 0, none, none, none, false⟩

/-- A 31-sample series, flat at 100 with a final jump to 130: long enough for
the default windows `[10, 20, 30]` and containing surge events. -/
def flatJump : List Sample :=
  [⟨"d00", 100⟩, ⟨"d01", 100⟩, ⟨"d02", 100⟩, ⟨"d03", 100⟩, ⟨"d04", 100⟩,
   ⟨"d05", 100⟩, ⟨"d06", 100⟩, ⟨"d07", 100⟩, ⟨"d08", 100⟩, ⟨"d09", 100⟩,
   ⟨"d10", 100⟩, ⟨"d11", 100⟩, ⟨"d12", 100⟩, ⟨"d13", 100⟩, ⟨"d14", 100⟩,
   ⟨"d15", 100⟩, ⟨"d16", 100⟩, ⟨"d17", 100⟩, ⟨"d18", 100⟩, ⟨"d19", 100⟩,
   ⟨"d20", 100⟩, ⟨"d21", 100⟩, ⟨"d22", 100⟩, ⟨"d23", 100⟩, ⟨"d24", 100⟩,
   ⟨"d25", 100⟩, ⟨"d26", 100⟩, ⟨"d27", 100⟩, ⟨"d28", 100⟩, ⟨"d29", 100⟩,
   ⟨"d30", 130⟩]

/-- The three surge events detected on `flatJump` (windows 10, 20, 30, all
ending at the final jump). -/
def evFlat10 : SurgeEvent :=
  ⟨"000003", "G", "d20", "d30", 10, 30, some 0, some (2143/500), none, true⟩

def evFlat20 : SurgeEvent :=
  ⟨"000003", "G", "d10", "d30", 20, 30, some 0, some (341/250), none, true⟩

def evFlat30 : SurgeEvent :=
  ⟨"000003", "G", "d00", "d30", 30, 30, some 0, some (331/500), none, true⟩

/-- The value and date vectors of `flatJump`. -/
def flatVals : List ℚ :=
  [100, 100, 100, 100, 100, 100, 100, 100, 100, 100,
   100, 100, 100, 100, 100, 100, 100, 100, 100, 100,
   100, 100, 100, 100, 100, 100, 100, 100, 100, 100, 130]

def flatDates : List String :=
  ["d00", "d01", "d02", "d03", "d04", "d05", "d06", "d07", "d08", "d09",
   "d10", "d11", "d12", "d13", "d14", "d15", "d16", "d17", "d18", "d19",
   "d20", "d21", "d22", "d23", "d24", "d25", "d26", "d27", "d28", "d29", "d30"]

/-- A database with one fund whose series is `flatJump`. -/
def dbOne : List Instrument := [⟨"000003", "G", flatJump⟩]

/-! ### Invariant predicates used by the soundness lemmas -/

/-- Provenance of an accepted `UptrendPhase`: it was built by the loop from an
ascent start `s` and candidate end `pe`, passed validation with a positive
validated length, and met both acceptance thresholds. -/
def PhaseInv (cfg : PhaseCfg) (code name : String) (p : List ℚ) (dates : List String)
    (ph : UptrendPhase) : Prop :=
  ∃ s pe, s < pe ∧ pe < p.length ∧
    0 < findValidPhaseEnd cfg.max_drawdown_tolerance (pslice p s pe) ∧
    cfg.min_gain ≤
      gainPct p s (s + findValidPhaseEnd cfg.max_drawdown_tolerance (pslice p s pe)) ∧
    cfg.min_duration ≤ findValidPhaseEnd cfg.max_drawdown_tolerance (pslice p s pe) ∧
    ph = mkPhaseRecord code name p dates s
      (s + findValidPhaseEnd cfg.max_drawdown_tolerance (pslice p s pe))

/-- Provenance of an emitted `SurgeEvent`: it comes from some configured
window `w` ending at a valid index `i` whose window passed `is_surge`. -/
def EventInv (cfg : SurgeCfg) (code name : String) (p : List ℚ) (dates : List String)
    (e : SurgeEvent) : Prop :=
  ∃ w i, w ∈ cfg.windows ∧ w ≤ i ∧ i < p.length ∧
    (isSurge cfg (pslice p (i - w) i)).surge = true ∧
    e = mkSurgeEvent cfg code name p dates w i

/-- The deduplication invariant of `scan_fund`'s loop state: every emitted
event's range key is registered, and the emitted events have pairwise
distinct range keys. -/
def DedupInv (st : ScanState) : Prop :=
  (∀ e ∈ st.events, rangeKey e.start_date e.end_date ∈ st.ranges) ∧
    st.events.Pairwise
      (fun a b => rangeKey a.start_date a.end_date ≠ rangeKey b.start_date b.end_date)

/-! ### Index and slice lemmas -/

theorem pslice_length (p : List ℚ) (s e : ℕ) (hse : s ≤ e) (he : e < p.length) :
    (pslice p s e).length = e - s + 1 := by
  simp only [pslice, List.length_take, List.length_drop]
  omega

theorem pget_pslice (p : List ℚ) (s e t : ℕ) (ht : t ≤ e - s) (he : e < p.length) :
    pget (pslice p s e) t = pget p (s + t) := by
  simp only [pget, pslice, List.getD_eq_getElem?_getD]
  rw [List.getElem?_take_of_lt (by omega), List.getElem?_drop]

theorem pmaxFrom_succ_zero (q : List ℚ) (d : ℕ) :
    pmaxFrom q 0 (d + 1) = max (pmaxFrom q 0 d) (pget q (d + 1)) := by
  simp [pmaxFrom]

theorem pmaxFrom_pslice (p : List ℚ) (s e : ℕ) (he : e < p.length) :
    ∀ d, d ≤ e - s → pmaxFrom (pslice p s e) 0 d = pmaxFrom p s d := by
  intro d
  induction d with
  | zero =>
    intro _
    show pget (pslice p s e) 0 = pget p s
    rw [pget_pslice p s e 0 (by omega) he, Nat.add_zero]
  | succ d ih =>
    intro hd
    rw [pmaxFrom_succ_zero, ih (by omega), pget_pslice p s e (d + 1) (by omega) he]
    rfl

/-! ### Rounding lemmas -/

theorem rhe_bounds (x : ℚ) : x - 1/2 ≤ (rhe x : ℚ) ∧ (rhe x : ℚ) ≤ x + 1/2 := by
  have h1 : (⌊x⌋ : ℚ) ≤ x := Int.floor_le x
  have h2 : x < ⌊x⌋ + 1 := Int.lt_floor_add_one x
  unfold rhe
  split_ifs with ha hb hc <;> constructor <;> push_cast <;> linarith

/-- An integer below a rational is below its half-to-even rounding. -/
theorem le_rhe_of_cast_le {z : ℤ} {y : ℚ} (h : (z : ℚ) ≤ y) : z ≤ rhe y := by
  have hb := (rhe_bounds y).1
  have h1 : (z : ℚ) - 1 < (rhe y : ℚ) := by linarith
  have h2 : (z - 1 : ℤ) < rhe y := by exact_mod_cast h1
  omega

/-- The recorded value `round(x, 2)` still clears any threshold with at most
two decimal places that the exact value cleared. -/
theorem centi_le_pyRound {g x : ℚ} (hg : Centi g) (hle : g ≤ x) : g ≤ pyRound 2 x := by
  obtain ⟨z, rfl⟩ := hg
  have h1 : (z : ℚ) ≤ x * 10 ^ 2 := by nlinarith [hle]
  have hz : z ≤ rhe (x * 10 ^ 2) := le_rhe_of_cast_le h1
  have hzq : (z : ℚ) ≤ (rhe (x * 10 ^ 2) : ℚ) := by exact_mod_cast hz
  unfold pyRound
  have h4 : ((10 : ℚ) ^ (2 : ℕ)) = 100 := by norm_num
  rw [h4] at hzq ⊢
  linarith

/-! ### Soundness of the validation pass -/

theorem drop_length_le {q : List ℚ} {i : ℕ} (h : q.drop i = []) : q.length ≤ i := by
  have := congrArg List.length h
  simp only [List.length_drop, List.length_nil] at this
  omega

theorem drop_cons_head {q : List ℚ} {i : ℕ} {c : ℚ} {rest : List ℚ}
    (h : q.drop i = c :: rest) : c = pget q i ∧ rest = q.drop (i + 1) ∧ i < q.length := by
  have hlen : i < q.length := by
    by_contra hcon
    rw [List.drop_eq_nil_of_le (by omega)] at h
    exact List.noConfusion h
  refine ⟨?_, ?_, hlen⟩
  · have h0 : (q.drop i)[0]? = some c := by rw [h]; exact List.getElem?_cons_zero
    rw [List.getElem?_drop, Nat.add_zero] at h0
    simp [pget, List.getD_eq_getElem?_getD, h0]
  · have : (q.drop i).drop 1 = rest := by rw [h]; rfl
    rw [List.drop_drop] at this
    rw [← this, Nat.add_comm]

/-- Every index up to the value returned by `_find_valid_phase_end`'s loop has
drawdown from its running peak within tolerance. -/
theorem fvGo_sound (tol : ℚ) (htol : 0 ≤ tol) (q : List ℚ) :
    ∀ rest i peak peakIdx, rest = q.drop i → 1 ≤ i →
      peak = pmaxFrom q 0 (i - 1) → peakIdx < i →
      (∀ k, k < i → (pmaxFrom q 0 k - pget q k) / pmaxFrom q 0 k * 100 ≤ tol) →
      ∀ k, k ≤ fvGo tol q.length rest i peak peakIdx →
        (pmaxFrom q 0 k - pget q k) / pmaxFrom q 0 k * 100 ≤ tol := by
  intro rest
  induction rest with
  | nil =>
    intro i peak peakIdx hrest hi hpeak hpi hprev k hk
    simp only [fvGo] at hk
    have hlen : q.length ≤ i := drop_length_le hrest.symm
    exact hprev k (by omega)
  | cons c rest ih =>
    intro i peak peakIdx hrest hi hpeak hpi hprev k hk
    obtain ⟨hc, hrest2, hidx⟩ := drop_cons_head hrest.symm
    have hstep : i - 1 + 1 = i := by omega
    simp only [fvGo] at hk
    by_cases hup : peak < c
    · rw [if_pos hup] at hk
      have hmax : pmaxFrom q 0 i = c := by
        rw [← hstep, pmaxFrom_succ_zero, hstep, ← hpeak, ← hc]
        exact max_eq_right (le_of_lt hup)
      refine ih (i + 1) c i hrest2 (by omega) ?_ (by omega) ?_ k hk
      · rw [show i + 1 - 1 = i by omega, hmax]
      · intro k2 hk2
        rcases Nat.lt_succ_iff_lt_or_eq.mp hk2 with h | rfl
        · exact hprev k2 h
        · rw [hmax, ← hc, sub_self, zero_div, zero_mul]
          exact htol
    · rw [if_neg hup] at hk
      have hmax : pmaxFrom q 0 i = peak := by
        rw [← hstep, pmaxFrom_succ_zero, hstep, ← hpeak, ← hc]
        exact max_eq_left (le_of_not_lt hup)
      by_cases hbr : tol < (peak - c) / peak * 100
      · rw [if_pos hbr] at hk
        exact hprev k (by omega)
      · rw [if_neg hbr] at hk
        refine ih (i + 1) peak peakIdx hrest2 (by omega) ?_ (by omega) ?_ k hk
        · rw [show i + 1 - 1 = i by omega, hmax]
        · intro k2 hk2
          rcases Nat.lt_succ_iff_lt_or_eq.mp hk2 with h | rfl
          · exact hprev k2 h
          · rw [hmax, ← hc]
            exact le_of_not_lt hbr

/-- The drawdown invariant delivered by `_find_valid_phase_end`: every index
up to the returned end has drawdown at most `tol` from the running maximum. -/
theorem findValidPhaseEnd_sound (tol : ℚ) (htol : 0 ≤ tol) (q : List ℚ) :
    ∀ k, k ≤ findValidPhaseEnd tol q →
      (pmaxFrom q 0 k - pget q k) / pmaxFrom q 0 k * 100 ≤ tol := by
  intro k hk
  unfold findValidPhaseEnd at hk
  split_ifs at hk with hshort
  · have hk0 : k = 0 := by omega
    subst hk0
    show (pmaxFrom q 0 0 - pget q 0) / pmaxFrom q 0 0 * 100 ≤ tol
    simp only [pmaxFrom, sub_self, zero_div, zero_mul]
    exact htol
  · refine fvGo_sound tol htol q (q.drop 1) 1 (pget q 0) 0 rfl le_rfl rfl (by omega) ?_ k hk
    intro k2 hk2
    have : k2 = 0 := by omega
    subst this
    simp only [pmaxFrom, sub_self, zero_div, zero_mul]
    exact htol

theorem fvGo_le (tol : ℚ) (q : List ℚ) :
    ∀ rest i peak peakIdx, rest = q.drop i → peakIdx < i →
      fvGo tol q.length rest i peak peakIdx ≤ q.length - 1 := by
  intro rest
  induction rest with
  | nil =>
    intro i peak peakIdx _ _
    simp [fvGo]
  | cons c rest ih =>
    intro i peak peakIdx hrest hpi
    obtain ⟨_, hrest2, hidx⟩ := drop_cons_head hrest.symm
    simp only [fvGo]
    split_ifs
    · exact ih (i + 1) c i hrest2 (by omega)
    · omega
    · exact ih (i + 1) peak peakIdx hrest2 (by omega)

theorem findValidPhaseEnd_le (tol : ℚ) (q : List ℚ) :
    findValidPhaseEnd tol q ≤ q.length - 1 := by
  unfold findValidPhaseEnd
  split_ifs with hshort
  · omega
  · exact fvGo_le tol q (q.drop 1) 1 (pget q 0) 0 rfl (by omega)

/-! ### The forward scan's peak index -/

theorem scanAhead_snd_ge (tol : ℚ) :
    ∀ rest j peak peakIdx, peakIdx ≤ j →
      peakIdx ≤ (scanAhead tol rest j peak peakIdx).2 := by
  intro rest
  induction rest with
  | nil =>
    intro j peak peakIdx _
    simp [scanAhead]
  | cons c rest ih =>
    intro j peak peakIdx hpj
    simp only [scanAhead]
    by_cases h1 : tol < (max peak c - c) / max peak c * 100
    · rw [if_pos h1]
      by_cases h2 : peak < c
      · rw [if_pos h2]; exact hpj
      · rw [if_neg h2]
    · rw [if_neg h1]
      calc peakIdx ≤ (if peak < c then j else peakIdx) := by split_ifs <;> omega
        _ ≤ _ := ih (j + 1) (max peak c) _ (by split_ifs <;> omega)

theorem scanAhead_snd_lt (tol : ℚ) (q : List ℚ) :
    ∀ rest j peak peakIdx, rest = q.drop j → peakIdx < q.length →
      (scanAhead tol rest j peak peakIdx).2 < q.length := by
  intro rest
  induction rest with
  | nil =>
    intro j peak peakIdx _ hpi
    simpa [scanAhead] using hpi
  | cons c rest ih =>
    intro j peak peakIdx hrest hpi
    obtain ⟨_, hrest2, hidx⟩ := drop_cons_head hrest.symm
    simp only [scanAhead]
    by_cases h1 : tol < (max peak c - c) / max peak c * 100
    · rw [if_pos h1]
      by_cases h2 : peak < c
      · rw [if_pos h2]; exact hidx
      · rw [if_neg h2]; exact hpi
    · rw [if_neg h1]
      exact ih (j + 1) (max peak c) _ hrest2 (by split_ifs <;> omega)

/-! ### Soundness of the phase-detection loop -/

theorem scanFromIdx_snd_ge (tol : ℚ) (p : List ℚ) (i : ℕ) :
    i ≤ (scanFromIdx tol p i).2 :=
  scanAhead_snd_ge tol (p.drop (i + 1)) (i + 1) (pget p i) i (by omega)

theorem scanFromIdx_snd_lt (tol : ℚ) (p : List ℚ) (i : ℕ) (hi : i < p.length) :
    (scanFromIdx tol p i).2 < p.length :=
  scanAhead_snd_lt tol p (p.drop (i + 1)) (i + 1) (pget p i) i rfl hi

/-- Every phase produced by the loop of `detect_phases` carries the
`PhaseInv` provenance. -/
theorem phaseGo_sound (cfg : PhaseCfg) (code name : String) (p : List ℚ)
    (dates : List String) :
    ∀ fuel i ph, ph ∈ phaseGo cfg code name p dates fuel i →
      PhaseInv cfg code name p dates ph := by
  intro fuel
  induction fuel with
  | zero =>
    intro i ph hph
    simp [phaseGo] at hph
  | succ fuel ih =>
    intro i ph hph
    simp only [phaseGo, phaseStep] at hph
    by_cases h1 : i + 1 < p.length
    · rw [if_pos h1] at hph
      by_cases h2 : pget p (i + 1) ≤ pget p i
      · rw [if_pos h2] at hph
        exact ih _ _ hph
      · rw [if_neg h2] at hph
        by_cases h3 : i < (scanFromIdx cfg.max_drawdown_tolerance p i).2
        · rw [if_pos h3] at hph
          by_cases h4 : 0 < findValidPhaseEnd cfg.max_drawdown_tolerance
              (pslice p i (scanFromIdx cfg.max_drawdown_tolerance p i).2)
          · rw [if_pos h4] at hph
            by_cases h5 : cfg.min_gain ≤ gainPct p i (i + findValidPhaseEnd
                  cfg.max_drawdown_tolerance
                  (pslice p i (scanFromIdx cfg.max_drawdown_tolerance p i).2)) ∧
                cfg.min_duration ≤ findValidPhaseEnd cfg.max_drawdown_tolerance
                  (pslice p i (scanFromIdx cfg.max_drawdown_tolerance p i).2)
            · rw [if_pos h5] at hph
              rcases List.mem_cons.mp hph with rfl | h6
              · exact ⟨i, (scanFromIdx cfg.max_drawdown_tolerance p i).2, h3,
                  scanFromIdx_snd_lt cfg.max_drawdown_tolerance p i (by omega),
                  h4, h5.1, h5.2, rfl⟩
              · exact ih _ _ h6
            · rw [if_neg h5] at hph
              exact ih _ _ hph
          · rw [if_neg h4] at hph
            exact ih _ _ hph
        · rw [if_neg h3] at hph
          exact ih _ _ hph
    · rw [if_neg h1] at hph
      simp at hph

/-- Every phase returned by `detect_phases` carries the `PhaseInv`
provenance. -/
theorem detectPhases_sound (cfg : PhaseCfg) (code name : String) (data : List Sample) :
    ∀ ph ∈ detectPhases cfg code name data,
      PhaseInv cfg code name (valuesOf data) (datesOf data) ph := by
  intro ph hph
  unfold detectPhases at hph
  split_ifs at hph with hguard
  · simp at hph
  · exact phaseGo_sound cfg code name (valuesOf data) (datesOf data) _ 0 ph hph

/-! ### Claim C1 -/

/-- C1: for every UptrendPhase returned by `detect_phases` and every index `k`
in `[start_idx, end_idx]`, the drawdown of `prices[k]` from the maximum value
seen over `[start_idx, k]` is at most `max_drawdown_tolerance` percent; the
conclusion is a non-strict inequality because a drawdown exactly equal to the
tolerance is acceptable and only strict excess breaks the phase. -/
theorem c1_drawdown_invariant (cfg : PhaseCfg) (code name : String) (data : List Sample)
    (htol : 0 ≤ cfg.max_drawdown_tolerance) :
    ∀ ph ∈ detectPhases cfg code name data, ∀ k, ph.start_idx ≤ k → k ≤ ph.end_idx →
      (pmaxFrom (valuesOf data) ph.start_idx (k - ph.start_idx) - pget (valuesOf data) k) /
          pmaxFrom (valuesOf data) ph.start_idx (k - ph.start_idx) * 100 ≤
        cfg.max_drawdown_tolerance := by
  intro ph hph k hk1 hk2
  obtain ⟨s, pe, hspe, hpe, hv, _, _, hrec⟩ := detectPhases_sound cfg code name data ph hph
  subst hrec
  dsimp only [mkPhaseRecord] at hk1 hk2 ⊢
  set v := findValidPhaseEnd cfg.max_drawdown_tolerance (pslice (valuesOf data) s pe) with hvdef
  have hlen : (pslice (valuesOf data) s pe).length = pe - s + 1 :=
    pslice_length (valuesOf data) s pe (by omega) hpe
  have hle2 := findValidPhaseEnd_le cfg.max_drawdown_tolerance (pslice (valuesOf data) s pe)
  rw [← hvdef] at hle2
  have hvle : v ≤ pe - s := by omega
  have ht : k - s ≤ v := by omega
  have hdd := findValidPhaseEnd_sound cfg.max_drawdown_tolerance htol
    (pslice (valuesOf data) s pe) (k - s) ht
  rw [pmaxFrom_pslice (valuesOf data) s pe hpe (k - s) (by omega),
    pget_pslice (valuesOf data) s pe (k - s) (by omega) hpe,
    show s + (k - s) = k from by omega] at hdd
  exact hdd

/-- Unfolding equation for one iteration of the phase loop. -/
theorem phaseGo_succ (cfg : PhaseCfg) (code name : String) (p : List ℚ)
    (dates : List String) (fuel i : ℕ) :
    phaseGo cfg code name p dates (fuel + 1) i =
      phaseStep cfg code name p dates (phaseGo cfg code name p dates fuel) i := rfl

/-- Witness for C1 at Scenario A, index `k = 3`. -/
theorem c1_drawdown_invariant_witness :
    (pmaxFrom (valuesOf dataA) 0 3 - pget (valuesOf dataA) 3) /
        pmaxFrom (valuesOf dataA) 0 3 * 100 ≤ cfgA.max_drawdown_tolerance := by
  have h0 : valuesOf dataA = [100, 102, 104, 106, 108, 110] := by norm_num [valuesOf, dataA]
  have h1 : datesOf dataA = ["d0", "d1", "d2", "d3", "d4", "d5"] := by norm_num [datesOf, dataA]
  have hmem : phaseA ∈ detectPhases cfgA "000001" "T" dataA := by
    unfold detectPhases
    rw [h0, h1]
    rw [if_neg (by simp [dataA, cfgA])]
    norm_num
    rw [phaseGo_succ]
    norm_num [phaseStep, cfgA, phaseA, scanFromIdx, scanAhead, findValidPhaseEnd, fvGo,
      pslice, pget, dget, gainPct, mkPhaseRecord, calcMaxDrawdown, mddGo, segmentSlopes,
      surgeSegSlopes, linSlope, xIdx, listMean, accelOf, accelGt, slopeGt, pyRound, rhe,
      List.range_succ]
  have h := c1_drawdown_invariant cfgA "000001" "T" dataA (by norm_num [cfgA]) phaseA hmem 3
    (by norm_num [phaseA]) (by norm_num [phaseA])
  simpa [phaseA] using h

/-! ### Soundness of the surge scan -/

theorem wGo_zero (cfg : SurgeCfg) (code name : String) (p : List ℚ) (dates : List String)
    (w i : ℕ) (st : ScanState) : wGo cfg code name p dates w 0 i st = st := rfl

theorem wGo_succ (cfg : SurgeCfg) (code name : String) (p : List ℚ) (dates : List String)
    (w k i : ℕ) (st : ScanState) :
    wGo cfg code name p dates w (k + 1) i st =
      wStep cfg code name p dates w (wGo cfg code name p dates w k) i st := rfl

theorem iteTF_eq_true {c : Prop} [Decidable c] : ((if c then true else false) = true) ↔ c := by
  split_ifs with h <;> simp [h]

theorem slopeGt_eq_true {s : Option ℚ} {c : ℚ} :
    slopeGt s c = true ↔ ∃ q, s = some q ∧ c < q := by
  cases s with
  | none => simp [slopeGt]
  | some q => simp [slopeGt, iteTF_eq_true]

/-- Decomposition of the `is_surge` verdict into its three conditions. -/
theorem isSurge_guard {cfg : SurgeCfg} {p : List ℚ} (h : (isSurge cfg p).surge = true) :
    cfg.min_gain ≤ surgeGain p ∧ cfg.min_slope ≤ surgeGain p / (p.length : ℚ) ∧
      ∃ q, (surgeSegSlopes p).2.1 = some q ∧ 0 < q := by
  simp only [isSurge] at h
  rw [Bool.and_eq_true, Bool.and_eq_true] at h
  obtain ⟨⟨h1, h2⟩, h3⟩ := h
  exact ⟨iteTF_eq_true.mp h1, iteTF_eq_true.mp h2, slopeGt_eq_true.mp h3⟩

/-- Events accumulated by the window loop satisfy any property `Q` that holds
for every event the loop can emit and for the events already accumulated. -/
theorem wGo_sound (cfg : SurgeCfg) (code name : String) (p : List ℚ) (dates : List String)
    (w : ℕ) (Q : SurgeEvent → Prop)
    (hQ : ∀ i, w ≤ i → i < p.length → (isSurge cfg (pslice p (i - w) i)).surge = true →
      Q (mkSurgeEvent cfg code name p dates w i)) :
    ∀ k i st, k ≤ p.length - i → w ≤ i → (∀ e ∈ st.events, Q e) →
      ∀ e ∈ (wGo cfg code name p dates w k i st).events, Q e := by
  intro k
  induction k with
  | zero =>
    intro i st _ _ hst e he
    exact hst e he
  | succ k ih =>
    intro i st hk hw hst e he
    rw [wGo_succ] at he
    simp only [wStep] at he
    by_cases h1 : (isSurge cfg (pslice p (i - w) i)).surge = true
    · rw [if_pos h1] at he
      by_cases h2 : rangeKey (dget dates (i - w)) (dget dates i) ∈ st.ranges
      · rw [if_pos h2] at he
        exact ih (i + 1) st (by omega) (by omega) hst e he
      · rw [if_neg h2] at he
        refine ih (i + 1) _ (by omega) (by omega) ?_ e he
        intro e2 he2
        rcases List.mem_append.mp he2 with h | h
        · exact hst e2 h
        · rcases List.mem_singleton.mp h with rfl
          exact hQ i hw (by omega) h1
    · rw [if_neg h1] at he
      exact ih (i + 1) st (by omega) (by omega) hst e he

/-- The window loop preserves the deduplication invariant. -/
theorem wGo_dedup (cfg : SurgeCfg) (code name : String) (p : List ℚ) (dates : List String)
    (w : ℕ) : ∀ k i st, DedupInv st → DedupInv (wGo cfg code name p dates w k i st) := by
  intro k
  induction k with
  | zero =>
    intro i st hst
    exact hst
  | succ k ih =>
    intro i st hst
    rw [wGo_succ]
    simp only [wStep]
    by_cases h1 : (isSurge cfg (pslice p (i - w) i)).surge = true
    · rw [if_pos h1]
      by_cases h2 : rangeKey (dget dates (i - w)) (dget dates i) ∈ st.ranges
      · rw [if_pos h2]
        exact ih (i + 1) st hst
      · rw [if_neg h2]
        refine ih (i + 1) _ ⟨?_, ?_⟩
        · intro e2 he2
          rcases List.mem_append.mp he2 with h | h
          · exact List.mem_cons_of_mem _ (hst.1 e2 h)
          · rcases List.mem_singleton.mp h with rfl
            simp only [mkSurgeEvent]
            exact List.mem_cons_self _ _
        · rw [List.pairwise_append]
          refine ⟨hst.2, List.pairwise_singleton _ _, ?_⟩
          intro a ha b hb
          rcases List.mem_singleton.mp hb with rfl
          simp only [mkSurgeEvent]
          intro hcon
          exact h2 (hcon ▸ hst.1 a ha)
    · rw [if_neg h1]
      exact ih (i + 1) st hst

/-- Every event accumulated by the fold over the configured windows carries
the `EventInv` provenance. -/
theorem foldW_sound (cfg : SurgeCfg) (code name : String) (p : List ℚ) (dates : List String) :
    ∀ ws : List ℕ, (∀ w ∈ ws, w ∈ cfg.windows) → ∀ st : ScanState,
      (∀ e ∈ st.events, EventInv cfg code name p dates e) →
      ∀ e ∈ (ws.foldl (fun st w => wGo cfg code name p dates w (p.length - w) w st) st).events,
        EventInv cfg code name p dates e := by
  intro ws
  induction ws with
  | nil =>
    intro _ st hst e he
    exact hst e he
  | cons w ws ih =>
    intro hws st hst e he
    rw [List.foldl_cons] at he
    refine ih (fun w2 hw2 => hws w2 (List.mem_cons_of_mem _ hw2)) _ ?_ e he
    intro e2 he2
    refine wGo_sound cfg code name p dates w (EventInv cfg code name p dates) ?_
      (p.length - w) w st (by omega) le_rfl hst e2 he2
    intro i hwi hip hsurge
    exact ⟨w, i, hws w (List.mem_cons_self _ _), hwi, hip, hsurge, rfl⟩

/-- The fold over the configured windows preserves the deduplication
invariant. -/
theorem foldW_dedup (cfg : SurgeCfg) (code name : String) (p : List ℚ) (dates : List String) :
    ∀ ws : List ℕ, ∀ st : ScanState, DedupInv st →
      DedupInv (ws.foldl (fun st w => wGo cfg code name p dates w (p.length - w) w st) st) := by
  intro ws
  induction ws with
  | nil =>
    intro st hst
    exact hst
  | cons w ws ih =>
    intro st hst
    rw [List.foldl_cons]
    exact ih _ (wGo_dedup cfg code name p dates w (p.length - w) w st hst)

theorem insertByEnd_perm (e : SurgeEvent) (l : List SurgeEvent) :
    (insertByEnd e l).Perm (e :: l) := by
  induction l with
  | nil => exact List.Perm.refl _
  | cons x xs ih =>
    simp only [insertByEnd]
    split_ifs
    · exact List.Perm.refl _
    · exact (ih.cons x).trans (List.Perm.swap e x xs)

theorem sortByEnd_perm (l : List SurgeEvent) : (sortByEnd l).Perm l := by
  induction l with
  | nil => exact List.Perm.refl _
  | cons x xs ih =>
    exact (insertByEnd_perm x (sortByEnd xs)).trans (ih.cons x)

/-- Every event returned by `scan_fund` carries the `EventInv` provenance. -/
theorem scanFund_sound (cfg : SurgeCfg) (code name : String) (data : List Sample) :
    ∀ e ∈ scanFund cfg code name data,
      EventInv cfg code name (valuesOf data) (datesOf data) e := by
  intro e he
  unfold scanFund at he
  split_ifs at he with hg
  · simp at he
  · have hperm := sortByEnd_perm
      ((cfg.windows.foldl (fun st w => wGo cfg code name (valuesOf data) (datesOf data) w
        ((valuesOf data).length - w) w st) ⟨[], []⟩).events)
    have he2 := hperm.mem_iff.mp he
    refine foldW_sound cfg code name (valuesOf data) (datesOf data) cfg.windows
      (fun _ h => h) ⟨[], []⟩ ?_ e he2
    intro e2 he2
    simp at he2

/-- The events returned by `scan_fund` have pairwise distinct range keys. -/
theorem scanFund_dedup (cfg : SurgeCfg) (code name : String) (data : List Sample) :
    (scanFund cfg code name data).Pairwise
      (fun a b => rangeKey a.start_date a.end_date ≠ rangeKey b.start_date b.end_date) := by
  unfold scanFund
  split_ifs with hg
  · exact List.Pairwise.nil
  · have hperm := sortByEnd_perm
      ((cfg.windows.foldl (fun st w => wGo cfg code name (valuesOf data) (datesOf data) w
        ((valuesOf data).length - w) w st) ⟨[], []⟩).events)
    have hd := foldW_dedup cfg code name (valuesOf data) (datesOf data) cfg.windows ⟨[], []⟩
      ⟨by intro e he; simp at he, List.Pairwise.nil⟩
    exact (hperm.pairwise_iff (fun h => h.symm)).mpr hd.2

/-- Full evaluation of `scan_fund` on the five-sample series `dataB` with the
single window 4: exactly one event, with a recorded `slope_second` of `0`. -/
theorem scanFundB_eval : scanFund cfgB "000002" "F" dataB = [eventB] := by
  have h0 : valuesOf dataB = [100, 108, 116, 116, 116 + 1/1250] := by
    norm_num [valuesOf, dataB]
  have h1 : datesOf dataB = ["e0", "e1", "e2", "e3", "e4"] := by norm_num [datesOf, dataB]
  unfold scanFund
  rw [if_neg (by norm_num [dataB, cfgB, listMax])]
  rw [h0, h1]
  norm_num [cfgB, List.foldl_cons, List.foldl_nil]
  rw [wGo_succ]
  norm_num [wStep, wGo_zero, isSurge, surgeGain, surgeSegSlopes, linSlope, xIdx, listMean,
    pslice, pget, dget, accelOf, accelGt, slopeGt, mkSurgeEvent, rangeKey, pyRound, rhe,
    List.range_succ, eventB, sortByEnd, insertByEnd]

/-! ### Claim C6 -/

/-- C6: within one `scan_fund` call, at most one SurgeEvent is emitted per
literal `(start_date, end_date)` pair across all configured window lengths:
the output events have pairwise distinct date-range pairs (the first window
length to claim a range key registers it in `detected_ranges`, suppressing
later duplicates of the identical range). -/
theorem c6_scan_dedup (cfg : SurgeCfg) (code name : String) (data : List Sample) :
    (scanFund cfg code name data).Pairwise
      (fun a b => ¬(a.start_date = b.start_date ∧ a.end_date = b.end_date)) := by
  refine (scanFund_dedup cfg code name data).imp ?_
  intro a b hk hcon
  exact hk (by rw [rangeKey, rangeKey, hcon.1, hcon.2])

/-! ### Claim C7 -/

/-- C7: every SurgeEvent produced by `scan_fund` comes from a window of
exactly its recorded `window` sample-count: its `start_date` and `end_date`
are the series dates at indices `i - window` and `i` for some valid end index
`i`, so the date range spans exactly `window` steps of the series. -/
theorem c7_window_exactness (cfg : SurgeCfg) (code name : String) (data : List Sample) :
    ∀ e ∈ scanFund cfg code name data, e.window ∈ cfg.windows ∧
      ∃ i, e.window ≤ i ∧ i < data.length ∧
        e.start_date = dget (datesOf data) (i - e.window) ∧
        e.end_date = dget (datesOf data) i := by
  intro e he
  obtain ⟨w, i, hw, hwi, hip, _, rfl⟩ := scanFund_sound cfg code name data e he
  have hlen : (valuesOf data).length = data.length := List.length_map _ _
  dsimp only [mkSurgeEvent]
  exact ⟨hw, i, hwi, by omega, rfl, rfl⟩

/-- Witness for C7 at the concrete scan of `dataB`. -/
theorem c7_window_exactness_witness :
    eventB.window ∈ cfgB.windows ∧
      ∃ i, eventB.window ≤ i ∧ i < dataB.length ∧
        eventB.start_date = dget (datesOf dataB) (i - eventB.window) ∧
        eventB.end_date = dget (datesOf dataB) i :=
  c7_window_exactness cfgB "000002" "F" dataB eventB
    (by rw [scanFundB_eval]; exact List.mem_singleton.mpr rfl)

/-! ### Claims C2 and C5 -/

theorem pget_valuesOf_pos {data : List Sample} (hpos : ∀ s ∈ data, 0 < s.value) {j : ℕ}
    (hj : j < data.length) : 0 < pget (valuesOf data) j := by
  have h1 : (valuesOf data)[j]? = some (data.get ⟨j, hj⟩).value := by
    simp [valuesOf, List.getElem?_map, List.getElem?_eq_getElem hj]
  simp only [pget, List.getD_eq_getElem?_getD, h1, Option.getD_some]
  exact hpos _ (List.get_mem data j hj)

/-- Counterexample to C2 as stated: on `dataB` the single scanned event is
emitted (its exact second-half slope `0.0004` is positive), yet its recorded
`slope_second`, rounded to three decimals, is `0 ≤ 0`. -/
theorem c2_min_thresholds_cex :
    (scanFund cfgB "000002" "F" dataB).headD defEvent ∈ scanFund cfgB "000002" "F" dataB ∧
      ((scanFund cfgB "000002" "F" dataB).headD defEvent).slope_second = some 0 := by
  rw [scanFundB_eval]
  exact ⟨List.mem_singleton.mpr rfl, rfl⟩

/-- C2 (amended): no UptrendPhase has `duration_days < min_duration`, and none
has recorded `total_gain < min_gain` provided `min_gain` is a whole number of
hundredths (as the defaults 10.0 and 15.0 are); every SurgeEvent's underlying
window clears `min_gain` exactly (hence also in the recorded rounded value),
clears `min_slope` on the exact average slope `total_gain / (window + 1)`
sample count, and has exact `slope_second > 0` — the recorded `slope_second`
is that slope rounded to three decimals, which can be `0`. -/
theorem c2_min_thresholds_amended (pcfg : PhaseCfg) (scfg : SurgeCfg)
    (code name code2 name2 : String) (dataP dataS : List Sample)
    (hgp : Centi pcfg.min_gain) (hgs : Centi scfg.min_gain) :
    (∀ ph ∈ detectPhases pcfg code name dataP,
        pcfg.min_duration ≤ ph.duration_days ∧ pcfg.min_gain ≤ ph.total_gain) ∧
    (∀ e ∈ scanFund scfg code2 name2 dataS,
        scfg.min_gain ≤ e.total_gain ∧
        ∃ i, e.window ≤ i ∧ i < dataS.length ∧
          scfg.min_gain ≤ surgeGain (pslice (valuesOf dataS) (i - e.window) i) ∧
          scfg.min_slope ≤ surgeGain (pslice (valuesOf dataS) (i - e.window) i) /
            ((pslice (valuesOf dataS) (i - e.window) i).length : ℚ) ∧
          ∃ q, (surgeSegSlopes (pslice (valuesOf dataS) (i - e.window) i)).2.1 = some q ∧
            0 < q ∧ e.slope_second = some (pyRound 3 q)) := by
  constructor
  · intro ph hph
    obtain ⟨s, pe, hspe, hpe, hv, hgain, hdur, rfl⟩ :=
      detectPhases_sound pcfg code name dataP ph hph
    dsimp only [mkPhaseRecord]
    refine ⟨by omega, centi_le_pyRound hgp hgain⟩
  · intro e he
    obtain ⟨w, i, hw, hwi, hip, hsurge, rfl⟩ := scanFund_sound scfg code2 name2 dataS e he
    obtain ⟨h1, h2, q, hq, hq0⟩ := isSurge_guard hsurge
    have hlen : (valuesOf dataS).length = dataS.length := List.length_map _ _
    dsimp only [mkSurgeEvent, isSurge]
    refine ⟨centi_le_pyRound hgs h1, i, hwi, by omega, h1, h2, q, hq, hq0, ?_⟩
    rw [hq]
    rfl

/-- Witness for the amended C2 at the concrete scans of `dataA` and `dataB`. -/
theorem c2_min_thresholds_amended_witness :
    (∀ ph ∈ detectPhases cfgA "000001" "T" dataA,
        cfgA.min_duration ≤ ph.duration_days ∧ cfgA.min_gain ≤ ph.total_gain) ∧
    (∀ e ∈ scanFund cfgB "000002" "F" dataB,
        cfgB.min_gain ≤ e.total_gain ∧
        ∃ i, e.window ≤ i ∧ i < dataB.length ∧
          cfgB.min_gain ≤ surgeGain (pslice (valuesOf dataB) (i - e.window) i) ∧
          cfgB.min_slope ≤ surgeGain (pslice (valuesOf dataB) (i - e.window) i) /
            ((pslice (valuesOf dataB) (i - e.window) i).length : ℚ) ∧
          ∃ q, (surgeSegSlopes (pslice (valuesOf dataB) (i - e.window) i)).2.1 = some q ∧
            0 < q ∧ e.slope_second = some (pyRound 3 q)) :=
  c2_min_thresholds_amended cfgA cfgB "000001" "T" "000002" "F" dataA dataB
    ⟨500, by norm_num [cfgA]⟩ ⟨1500, by norm_num [cfgB]⟩

/-- Counterexample to C5 as stated: the single event scanned on `dataB` spans
indices 0 to 4, its exact gain is `16.0008%`, but the recorded `total_gain`
is `16.0` — off by `0.0008`, far beyond the claimed `1e-6` tolerance. -/
theorem c5_gain_exactness_cex :
    (scanFund cfgB "000002" "F" dataB).headD defEvent ∈ scanFund cfgB "000002" "F" dataB ∧
      ((scanFund cfgB "000002" "F" dataB).headD defEvent).start_date = dget (datesOf dataB) 0 ∧
      ((scanFund cfgB "000002" "F" dataB).headD defEvent).end_date = dget (datesOf dataB) 4 ∧
      ¬(|((scanFund cfgB "000002" "F" dataB).headD defEvent).total_gain -
          gainPct (valuesOf dataB) 0 4| ≤ 1/1000000) := by
  rw [scanFundB_eval]
  refine ⟨List.mem_singleton.mpr rfl, by norm_num [eventB, dget, datesOf, dataB], by
    norm_num [eventB, dget, datesOf, dataB], ?_⟩
  norm_num [eventB, gainPct, valuesOf, dataB, pget]
  rw [abs_of_nonneg (by norm_num : (0:ℚ) ≤ 1/1250)]
  norm_num

/-- C5 (amended): every recorded `total_gain` equals the exact boundary gain
`(value[end] - value[start]) / value[start] × 100` rounded half-to-even to two
decimal places — i.e. exact to within `0.005`, not `1e-6`. -/
theorem c5_gain_rounding_amended (pcfg : PhaseCfg) (scfg : SurgeCfg)
    (code name code2 name2 : String) (dataP dataS : List Sample)
    (hpos : ∀ s ∈ dataS, 0 < s.value) :
    (∀ ph ∈ detectPhases pcfg code name dataP,
        ph.total_gain = pyRound 2 (gainPct (valuesOf dataP) ph.start_idx ph.end_idx)) ∧
    (∀ e ∈ scanFund scfg code2 name2 dataS,
        ∃ i, e.window ≤ i ∧ i < dataS.length ∧
          e.start_date = dget (datesOf dataS) (i - e.window) ∧
          e.end_date = dget (datesOf dataS) i ∧
          e.total_gain = pyRound 2 (gainPct (valuesOf dataS) (i - e.window) i)) := by
  constructor
  · intro ph hph
    obtain ⟨s, pe, hspe, hpe, hv, hgain, hdur, rfl⟩ :=
      detectPhases_sound pcfg code name dataP ph hph
    dsimp only [mkPhaseRecord]
  · intro e he
    obtain ⟨w, i, hw, hwi, hip, hsurge, rfl⟩ := scanFund_sound scfg code2 name2 dataS e he
    have hlen : (valuesOf dataS).length = dataS.length := List.length_map _ _
    have hilt : i < (valuesOf dataS).length := by omega
    have hwplen : (pslice (valuesOf dataS) (i - w) i).length = i - (i - w) + 1 :=
      pslice_length (valuesOf dataS) (i - w) i (by omega) hilt
    have hend : pget (pslice (valuesOf dataS) (i - w) i) ((pslice (valuesOf dataS) (i - w) i).length - 1) =
        pget (valuesOf dataS) i := by
      rw [hwplen]
      rw [pget_pslice (valuesOf dataS) (i - w) i (i - (i - w) + 1 - 1) (by omega) hilt]
      congr 1
      omega
    have hstart : pget (pslice (valuesOf dataS) (i - w) i) 0 = pget (valuesOf dataS) (i - w) := by
      rw [pget_pslice (valuesOf dataS) (i - w) i 0 (by omega) hilt, Nat.add_zero]
    have hgequal : surgeGain (pslice (valuesOf dataS) (i - w) i) =
        gainPct (valuesOf dataS) (i - w) i := by
      unfold surgeGain gainPct
      rw [hend, hstart]
      have hb : pget (valuesOf dataS) (i - w) ≠ 0 :=
        ne_of_gt (pget_valuesOf_pos hpos (by omega))
      rw [div_sub_one hb]
    dsimp only [mkSurgeEvent, isSurge]
    exact ⟨i, hwi, by omega, rfl, rfl, by rw [hgequal]⟩

/-- Witness for the amended C5 at the concrete scans of `dataA` and `dataB`. -/
theorem c5_gain_rounding_amended_witness :
    (∀ ph ∈ detectPhases cfgA "000001" "T" dataA,
        ph.total_gain = pyRound 2 (gainPct (valuesOf dataA) ph.start_idx ph.end_idx)) ∧
    (∀ e ∈ scanFund cfgB "000002" "F" dataB,
        ∃ i, e.window ≤ i ∧ i < dataB.length ∧
          e.start_date = dget (datesOf dataB) (i - e.window) ∧
          e.end_date = dget (datesOf dataB) i ∧
          e.total_gain = pyRound 2 (gainPct (valuesOf dataB) (i - e.window) i)) :=
  c5_gain_rounding_amended cfgA cfgB "000001" "T" "000002" "F" dataA dataB
    (by intro s hs; simp [dataB] at hs; rcases hs with rfl | rfl | rfl | rfl | rfl <;> norm_num)

/-! ### Algebra of the least-squares slope -/

theorem sum_sq_sub (x : List ℚ) (c : ℚ) :
    (x.map (fun a => (a - c) ^ 2)).sum =
      (x.map (fun a => a ^ 2)).sum - 2 * c * x.sum + (x.length : ℚ) * c ^ 2 := by
  induction x with
  | nil => simp
  | cons a t ih =>
    simp only [List.map_cons, List.sum_cons, ih, List.length_cons]
    push_cast
    ring

theorem sum_zip_sub (x : List ℚ) (c d : ℚ) :
    ∀ y : List ℚ, x.length = y.length →
      ((x.zip y).map (fun q => (q.1 - c) * (q.2 - d))).sum =
        ((x.zip y).map (fun q => q.1 * q.2)).sum - d * x.sum - c * y.sum +
          (x.length : ℚ) * c * d := by
  induction x with
  | nil =>
    intro y h
    cases y with
    | nil => simp
    | cons b u => simp at h
  | cons a t ih =>
    intro y h
    cases y with
    | nil => simp at h
    | cons b u =>
      have h2 : t.length = u.length := by simpa using h
      simp only [List.zip_cons_cons, List.map_cons, List.sum_cons, ih u h2,
        List.length_cons]
      push_cast
      ring

theorem sum_nonneg_zero (l : List ℚ) (h : ∀ a ∈ l, 0 ≤ a) (hz : l.sum = 0) :
    ∀ a ∈ l, a = 0 := by
  induction l with
  | nil =>
    intro a ha
    simp at ha
  | cons b t ih =>
    have hb : 0 ≤ b := h b (List.mem_cons_self _ _)
    have ht : 0 ≤ t.sum := List.sum_nonneg fun a ha => h a (List.mem_cons_of_mem _ ha)
    have hsum : b + t.sum = 0 := by simpa using hz
    intro a ha
    rcases List.mem_cons.mp ha with rfl | ha2
    · linarith
    · exact ih (fun a2 h2 => h a2 (List.mem_cons_of_mem _ h2)) (by linarith) a ha2

/-- The covariance form of the regression slope (as `scipy` computes it)
agrees with the normal-equation form, with the degenerate cases on both sides
collapsing to `0`. -/
theorem linSlope_getD_eq_olsSlope (x y : List ℚ) (hlen : x.length = y.length)
    (hx : x ≠ []) : (linSlope x y).getD 0 = olsSlope x y := by
  have hn : ((x.length : ℚ)) ≠ 0 := by
    have : x.length ≠ 0 := by simpa [List.length_eq_zero] using hx
    exact_mod_cast this
  simp only [linSlope, olsSlope]
  set S2 := (x.map (fun a => a ^ 2)).sum with hS2
  set SXY := ((x.zip y).map (fun q => q.1 * q.2)).sum with hSXY
  set X := x.sum with hX
  set Y := y.sum with hY
  set n : ℚ := (x.length : ℚ) with hndef
  have hxm : listMean x = X / n := rfl
  have hym : listMean y = Y / n := by
    show y.sum / (y.length : ℚ) = Y / n
    rw [← hlen]
  have hD : (x.map (fun a => (a - listMean x) ^ 2)).sum = S2 - X ^ 2 / n := by
    rw [sum_sq_sub, hxm]
    field_simp
    ring
  have hC : ((x.zip y).map (fun q => (q.1 - listMean x) * (q.2 - listMean y))).sum =
      SXY - X * Y / n := by
    rw [sum_zip_sub x _ _ y hlen, hxm, hym]
    field_simp
    ring
  by_cases hD0 : (x.map (fun a => (a - listMean x) ^ 2)).sum = 0
  · rw [if_pos hD0]
    have h2 : S2 - X ^ 2 / n = 0 := by rw [← hD]; exact hD0
    have hden : n * S2 - X ^ 2 = 0 := by
      field_simp at h2
      linear_combination h2
    rw [hden, div_zero]
    rfl
  · rw [if_neg hD0]
    rw [Option.getD_some, hC, hD]
    have hD' : S2 - X ^ 2 / n ≠ 0 := by rw [← hD]; exact hD0
    have e1 : n * SXY - X * Y = n * (SXY - X * Y / n) := by field_simp; ring
    have e2 : n * S2 - X ^ 2 = n * (S2 - X ^ 2 / n) := by field_simp; ring
    rw [e1, e2, mul_div_mul_left _ _ hn]

theorem xIdx_length (m : ℕ) : (xIdx m).length = m := by
  show ((List.range m).map (fun t : ℕ => (t : ℚ))).length = m
  rw [List.length_map, List.length_range]

theorem xIdx_ne_nil {m : ℕ} (hm : 1 ≤ m) : xIdx m ≠ [] := by
  intro hcon
  have h := xIdx_length m
  rw [hcon] at h
  simp at h
  omega

/-- For at least two regression points the x-variance is nonzero, so the
regression is defined. -/
theorem xIdx_denom_ne (m : ℕ) (hm : 2 ≤ m) :
    ((xIdx m).map (fun a => (a - listMean (xIdx m)) ^ 2)).sum ≠ 0 := by
  intro h0
  have hterm : ∀ a ∈ (xIdx m).map (fun a => (a - listMean (xIdx m)) ^ 2), 0 ≤ a := by
    intro a ha
    obtain ⟨b, _, rfl⟩ := List.mem_map.mp ha
    positivity
  have hzero := sum_nonneg_zero _ hterm h0
  have hmem0 : (0 : ℚ) ∈ xIdx m :=
    List.mem_map.mpr ⟨0, List.mem_range.mpr (by omega), by norm_num⟩
  have hmem1 : (1 : ℚ) ∈ xIdx m :=
    List.mem_map.mpr ⟨1, List.mem_range.mpr (by omega), by norm_num⟩
  have h0m : ((0 : ℚ) - listMean (xIdx m)) ^ 2 = 0 :=
    hzero _ (List.mem_map_of_mem _ hmem0)
  have h1m : ((1 : ℚ) - listMean (xIdx m)) ^ 2 = 0 :=
    hzero _ (List.mem_map_of_mem _ hmem1)
  rw [sq_eq_zero_iff, sub_eq_zero] at h0m h1m
  rw [← h0m] at h1m
  norm_num at h1m

theorem accelOf_some (a b : ℚ) :
    accelOf (some a) (some b) =
      if 1/100 < a then some (b / a) else if 0 < b then none else some 0 := by
  have h1 : slopeGt (some a) (1/100) = true ↔ 1/100 < a := by
    rw [slopeGt_eq_true]
    simp
  have h2 : slopeGt (some b) 0 = true ↔ 0 < b := by
    rw [slopeGt_eq_true]
    simp
  unfold accelOf
  by_cases hc : (1 : ℚ)/100 < a
  · rw [if_pos (h1.mpr hc), if_pos hc]
    simp
  · rw [if_neg (fun h => hc (h1.mp h)), if_neg hc]
    by_cases hb : 0 < b
    · rw [if_pos (h2.mpr hb), if_pos hb]
    · rw [if_neg (fun h => hb (h2.mp h)), if_neg hb]

theorem pget_map_zero (f : ℚ → ℚ) (l : List ℚ) (hl : l ≠ []) :
    pget (l.map f) 0 = f (pget l 0) := by
  cases l with
  | nil => exact absurd rfl hl
  | cons a t => simp [pget]

/-! ### Claims C3 and C4 -/

/-- Counterexample to C3 as stated: on `[100, 200, 200, 300]` the code's
analyzer rebases the second half by subtracting the midpoint's cumulative
gain (keeping the overall start as denominator) and returns
`(100, 100, 1)`, whereas normalizing the second half to percentage gain from
its own first value as the claim words it would return `(100, 50, 0.5)`. -/
theorem c3_normalization_cex :
    claimedSegmentSlopes [100, 200, 200, 300] ≠ segmentSlopes [100, 200, 200, 300] := by
  norm_num [claimedSegmentSlopes, segmentSlopes, surgeSegSlopes, linSlope, olsSlope,
    xIdx, listMean, pget, accelOf, slopeGt, List.range_succ, Prod.ext_iff]

/-- Counterexample to C4 as stated: on the 3-sample series `[100, 110, 120]`
the phase detector's analyzer returns `(0, 0, 1.0)` via its short-input
guard, while the surge detector's analyzer (which has no such guard) runs a
one-point regression whose slope is undefined (NaN), so the two do not
return identical triples. -/
theorem c4_analyzer_cex :
    surgeSegSlopes [100, 110, 120] ≠ liftTriple (segmentSlopes [100, 110, 120]) := by
  norm_num [surgeSegSlopes, segmentSlopes, liftTriple, linSlope, xIdx, listMean, pget,
    accelOf, slopeGt, List.range_succ, Prod.ext_iff]

/-- C4 (amended): on every sub-series of at least 4 samples — in particular on
every window either detector actually analyzes with both regressions
defined — `SurgeDetector.calculate_segment_slopes` and
`UptrendPhaseDetector._calculate_segment_slopes` return identical
`(slope1, slope2, acceleration)` triples; for fewer than 4 samples the phase
version returns `(0, 0, 1.0)` while the surge version's regression
degenerates (NaN slope), so there they differ. -/
theorem c4_shared_analyzer_amended (p : List ℚ) (h : 4 ≤ p.length) :
    surgeSegSlopes p = liftTriple (segmentSlopes p) := by
  have hmid : 2 ≤ p.length / 2 := by omega
  have hmid2 : 2 ≤ p.length - p.length / 2 := by omega
  obtain ⟨a, ha⟩ : ∃ a, linSlope (xIdx (p.length / 2))
      ((p.map (fun v => (v / pget p 0 - 1) * 100)).take (p.length / 2)) = some a := by
    simp only [linSlope]
    rw [if_neg (xIdx_denom_ne _ hmid)]
    exact ⟨_, rfl⟩
  obtain ⟨b, hb⟩ : ∃ b, linSlope (xIdx (p.length - p.length / 2))
      (((p.map (fun v => (v / pget p 0 - 1) * 100)).drop (p.length / 2)).map
        (fun v => v - pget ((p.map (fun v => (v / pget p 0 - 1) * 100)).drop (p.length / 2)) 0))
      = some b := by
    simp only [linSlope]
    rw [if_neg (xIdx_denom_ne _ hmid2)]
    exact ⟨_, rfl⟩
  have hs : surgeSegSlopes p = (some a, some b, accelOf (some a) (some b)) := by
    simp only [surgeSegSlopes]
    rw [ha, hb]
  have hseg : segmentSlopes p = (a, b, accelOf (some a) (some b)) := by
    simp only [segmentSlopes]
    rw [if_neg (by omega : ¬ p.length < 4), hs]
    rfl
  rw [hs, hseg]
  rfl

/-- Witness for the amended C4 on a 4-sample series. -/
theorem c4_shared_analyzer_amended_witness :
    surgeSegSlopes [100, 102, 104, 106] = liftTriple (segmentSlopes [100, 102, 104, 106]) :=
  c4_shared_analyzer_amended [100, 102, 104, 106] (by norm_num)

/-- C3 (amended): `_calculate_segment_slopes` splits at `n // 2`, fits an
ordinary least-squares line to each half against its 0-based local index,
and returns the stated acceleration cases with the `n < 4` edge case — but
the second half is rebased by subtracting the midpoint sample's cumulative
gain, with the overall first value kept as the percentage denominator (not
re-normalized to the second half's own first value). -/
theorem c3_segment_slopes_amended (p : List ℚ) :
    segmentSlopes p = rebasedSegmentSlopes p := by
  by_cases h4 : p.length < 4
  · simp only [segmentSlopes, rebasedSegmentSlopes]
    rw [if_pos h4, if_pos h4]
  · have hmid : 2 ≤ p.length / 2 := by omega
    have hmid2 : 2 ≤ p.length - p.length / 2 := by omega
    have htake : (p.map (fun v => (v / pget p 0 - 1) * 100)).take (p.length / 2)
        = (p.take (p.length / 2)).map (fun v => (v / pget p 0 - 1) * 100) :=
      (List.map_take _ _ _).symm
    have hdrop : (p.map (fun v => (v / pget p 0 - 1) * 100)).drop (p.length / 2)
        = (p.drop (p.length / 2)).map (fun v => (v / pget p 0 - 1) * 100) :=
      (List.map_drop _ _ _).symm
    have htlen : (p.take (p.length / 2)).length = p.length / 2 := by
      rw [List.length_take]
      omega
    have hdlen : (p.drop (p.length / 2)).length = p.length - p.length / 2 :=
      List.length_drop _ _
    have hd_ne : p.drop (p.length / 2) ≠ [] := by
      intro hcon
      have h2 := congrArg List.length hcon
      rw [hdlen] at h2
      simp at h2
      omega
    have hhead : pget ((p.drop (p.length / 2)).map (fun v => (v / pget p 0 - 1) * 100)) 0
        = (pget (p.drop (p.length / 2)) 0 / pget p 0 - 1) * 100 :=
      pget_map_zero _ _ hd_ne
    have hy2 : ((p.drop (p.length / 2)).map (fun v => (v / pget p 0 - 1) * 100)).map
          (fun v => v - (pget (p.drop (p.length / 2)) 0 / pget p 0 - 1) * 100)
        = (p.drop (p.length / 2)).map
            (fun v => (v - pget (p.drop (p.length / 2)) 0) / pget p 0 * 100) := by
      rw [List.map_map]
      refine List.map_congr_left ?_
      intro v _
      simp only [Function.comp_apply]
      ring
    obtain ⟨a, ha⟩ : ∃ a, linSlope (xIdx (p.length / 2))
        ((p.map (fun v => (v / pget p 0 - 1) * 100)).take (p.length / 2)) = some a := by
      simp only [linSlope]
      rw [if_neg (xIdx_denom_ne _ hmid)]
      exact ⟨_, rfl⟩
    obtain ⟨b, hb⟩ : ∃ b, linSlope (xIdx (p.length - p.length / 2))
        (((p.map (fun v => (v / pget p 0 - 1) * 100)).drop (p.length / 2)).map
          (fun v => v - pget ((p.map (fun v => (v / pget p 0 - 1) * 100)).drop (p.length / 2)) 0))
        = some b := by
      simp only [linSlope]
      rw [if_neg (xIdx_denom_ne _ hmid2)]
      exact ⟨_, rfl⟩
    have hsega : segmentSlopes p = (a, b, accelOf (some a) (some b)) := by
      simp only [segmentSlopes, surgeSegSlopes]
      rw [if_neg (by omega : ¬ p.length < 4), ha, hb]
      rfl
    -- identify the two OLS slopes with the code's regression values
    have haols : a = olsSlope (xIdx ((p.take (p.length / 2)).length))
        ((p.take (p.length / 2)).map (fun v => (v / pget p 0 - 1) * 100)) := by
      have h1 := linSlope_getD_eq_olsSlope (xIdx (p.length / 2))
        ((p.map (fun v => (v / pget p 0 - 1) * 100)).take (p.length / 2))
        (by rw [xIdx_length, List.length_take, List.length_map]; omega)
        (xIdx_ne_nil (by omega))
      rw [ha, Option.getD_some] at h1
      rw [h1, htake, htlen]
    have hbols : b = olsSlope (xIdx ((p.drop (p.length / 2)).length))
        ((p.drop (p.length / 2)).map
          (fun v => (v - pget (p.drop (p.length / 2)) 0) / pget p 0 * 100)) := by
      have h1 := linSlope_getD_eq_olsSlope (xIdx (p.length - p.length / 2))
        (((p.map (fun v => (v / pget p 0 - 1) * 100)).drop (p.length / 2)).map
          (fun v => v - pget ((p.map (fun v => (v / pget p 0 - 1) * 100)).drop (p.length / 2)) 0))
        (by rw [xIdx_length, List.length_map, List.length_drop, List.length_map])
        (xIdx_ne_nil (by omega))
      rw [hb, Option.getD_some] at h1
      rw [h1, hdrop, hhead, hy2, hdlen]
    rw [hsega, accelOf_some]
    simp only [rebasedSegmentSlopes]
    rw [if_neg (by omega : ¬ p.length < 4)]
    rw [← haols, ← hbols]

/-! ### Claim C8 -/

/-- C8: insufficient data never raises: a series shorter than `min_duration`
(or empty) makes `detect_phases` return `[]`; a series shorter than
`max(windows) + 1` makes `scan_fund` return `[]`; a target series with fewer
than `days + 1` samples makes `calculate_indicators` return the sentinel
result with all numeric fields zeroed, `vol_ratio = 1`,
`warning_level = "NONE"` and `score = 0`.  (`windows ≠ []` keeps `listMax`
faithful to Python's `max`, which requires a nonempty argument.) -/
theorem c8_insufficient_data (pcfg : PhaseCfg) (scfg : SurgeCfg)
    (code name code2 name2 fc : String) (dataP dataS dataF dataI : List Sample) (days : ℕ)
    (hW : scfg.windows ≠ [])
    (h1 : dataP = [] ∨ dataP.length < pcfg.min_duration)
    (h2 : dataS.length < listMax scfg.windows + 1)
    (h3 : dataF.length < days + 1) :
    detectPhases pcfg code name dataP = [] ∧
    scanFund scfg code2 name2 dataS = [] ∧
    (calculateIndicators fc dataF dataI days).momentum = 0 ∧
    (calculateIndicators fc dataF dataI days).relative_strength = 0 ∧
    (calculateIndicators fc dataF dataI days).index_return = 0 ∧
    (calculateIndicators fc dataF dataI days).volatility = 0 ∧
    (calculateIndicators fc dataF dataI days).vol_ratio = 1 ∧
    (calculateIndicators fc dataF dataI days).warning_level = "NONE" ∧
    (calculateIndicators fc dataF dataI days).score = 0 := by
  have hcalc : calculateIndicators fc dataF dataI days = emptyResult "数据不足" := by
    unfold calculateIndicators
    rw [if_pos h3]
  refine ⟨?_, ?_, ?_⟩
  · unfold detectPhases
    rw [if_pos h1]
  · unfold scanFund
    rw [if_pos h2]
  · rw [hcalc]
    exact ⟨rfl, rfl, rfl, rfl, rfl, rfl, rfl⟩

/-- Witness for C8 on concrete degenerate inputs. -/
theorem c8_insufficient_data_witness :
    detectPhases cfgA "c" "" [] = [] ∧
    scanFund defaultSurgeCfg "c" "" [⟨"d0", 1⟩] = [] ∧
    (calculateIndicators "c" [] [] 20).momentum = 0 ∧
    (calculateIndicators "c" [] [] 20).relative_strength = 0 ∧
    (calculateIndicators "c" [] [] 20).index_return = 0 ∧
    (calculateIndicators "c" [] [] 20).volatility = 0 ∧
    (calculateIndicators "c" [] [] 20).vol_ratio = 1 ∧
    (calculateIndicators "c" [] [] 20).warning_level = "NONE" ∧
    (calculateIndicators "c" [] [] 20).score = 0 :=
  c8_insufficient_data cfgA defaultSurgeCfg "c" "" "c" "" "c" [] [⟨"d0", 1⟩] [] [] 20
    (by simp [defaultSurgeCfg]) (Or.inl rfl) (by norm_num [defaultSurgeCfg, listMax])
    (by norm_num)

/-! ### Claim C9 -/

/-- A window that misses the gain threshold is never a surge (lets the
scan evaluation skip the slope computation on rejected windows). -/
theorem isSurge_surge_false {cfg : SurgeCfg} {p : List ℚ}
    (h : ¬ cfg.min_gain ≤ surgeGain p) : (isSurge cfg p).surge = false := by
  simp only [isSurge]
  rw [if_neg h]
  simp

/-- Window-10 pass over `flatJump`: twenty flat windows, then one surge at
the final index. -/
theorem flatW10 :
    wGo defaultSurgeCfg "000003" "G" flatVals flatDates 10 21 10 ⟨[], []⟩ =
      ⟨["d20_d30"], [evFlat10]⟩ := by
  simp only [flatVals, flatDates]
  iterate 20
    rw [wGo_succ]
    norm_num [wStep, isSurge_surge_false, surgeGain, pslice, pget, defaultSurgeCfg]
  rw [wGo_succ]
  norm_num [wStep, isSurge, surgeGain, surgeSegSlopes, linSlope, xIdx, listMean, pslice,
    pget, dget, accelOf, accelGt, slopeGt, mkSurgeEvent, rangeKey, pyRound, rhe,
    defaultSurgeCfg, List.range_succ, wGo_zero, evFlat10,
    show ("d20" ++ "_" ++ "d30" : String) = "d20_d30" from by decide]

/-- Window-20 pass over `flatJump`. -/
theorem flatW20 :
    wGo defaultSurgeCfg "000003" "G" flatVals flatDates 20 11 20 ⟨["d20_d30"], [evFlat10]⟩ =
      ⟨["d10_d30", "d20_d30"], [evFlat10, evFlat20]⟩ := by
  simp only [flatVals, flatDates]
  iterate 10
    rw [wGo_succ]
    norm_num [wStep, isSurge_surge_false, surgeGain, pslice, pget, defaultSurgeCfg]
  rw [wGo_succ]
  norm_num [wStep, isSurge, surgeGain, surgeSegSlopes, linSlope, xIdx, listMean, pslice,
    pget, dget, accelOf, accelGt, slopeGt, mkSurgeEvent, rangeKey, pyRound, rhe,
    defaultSurgeCfg, List.range_succ, wGo_zero, evFlat10, evFlat20,
    show ("d10" ++ "_" ++ "d30" : String) = "d10_d30" from by decide,
    show ¬(("d10_d30" : String) = "d20_d30") from by decide]

/-- Window-30 pass over `flatJump`. -/
theorem flatW30 :
    wGo defaultSurgeCfg "000003" "G" flatVals flatDates 30 1 30
        ⟨["d10_d30", "d20_d30"], [evFlat10, evFlat20]⟩ =
      ⟨["d00_d30", "d10_d30", "d20_d30"], [evFlat10, evFlat20, evFlat30]⟩ := by
  simp only [flatVals, flatDates]
  rw [wGo_succ]
  norm_num [wStep, isSurge, surgeGain, surgeSegSlopes, linSlope, xIdx, listMean, pslice,
    pget, dget, accelOf, accelGt, slopeGt, mkSurgeEvent, rangeKey, pyRound, rhe,
    defaultSurgeCfg, List.range_succ, wGo_zero, evFlat10, evFlat20, evFlat30,
    show ("d00" ++ "_" ++ "d30" : String) = "d00_d30" from by decide,
    show ¬(("d00_d30" : String) = "d10_d30") from by decide,
    show ¬(("d00_d30" : String) = "d20_d30") from by decide]

/-- `scan_fund` with the default configuration finds events on `flatJump`. -/
theorem flatScan_ne_nil : scanFund defaultSurgeCfg "000003" "G" flatJump ≠ [] := by
  have h0 : valuesOf flatJump = flatVals := by norm_num [valuesOf, flatJump, flatVals]
  have h1 : datesOf flatJump = flatDates := by norm_num [datesOf, flatJump, flatDates]
  have hlen : flatVals.length = 31 := by norm_num [flatVals]
  have hwin : defaultSurgeCfg.windows = [10, 20, 30] := rfl
  unfold scanFund
  rw [if_neg (by norm_num [flatJump, defaultSurgeCfg, listMax])]
  rw [h0, h1, hwin, hlen]
  simp only [List.foldl_cons, List.foldl_nil]
  norm_num
  rw [flatW10, flatW20, flatW30]
  intro hcon
  have hp := sortByEnd_perm [evFlat10, evFlat20, evFlat30]
  rw [hcon] at hp
  have hl := hp.length_eq
  simp at hl

/-- Counterexample to C9 as stated: running `scan_all_funds` twice on the
same instance leaves `all_events` holding both runs' events, not exactly the
events discovered in the second run (`scan_all_funds` never clears the
list — only `__init__` creates it empty). -/
theorem c9_clearing_cex :
    scanAllFunds dbOne (scanAllFunds dbOne []) ≠ scanAllFunds dbOne [] := by
  have hfold : ∀ prior, scanAllFunds dbOne prior =
      prior ++ scanFund defaultSurgeCfg "000003" "G" flatJump := fun _ => rfl
  simp only [hfold, List.nil_append]
  intro hcon
  have hlen := congrArg List.length hcon
  rw [List.length_append] at hlen
  exact flatScan_ne_nil (List.length_eq_zero.mp (by omega))

/-- C9 (amended): `all_events` accumulates across runs: after a call to
`scan_all_funds` it equals its prior contents extended with the events
discovered in that run.  Only a freshly constructed `SurgeBacktester`
(whose list starts empty) therefore holds exactly that run's events; the
list is not cleared per scan run. -/
theorem c9_accumulation_amended (db : List Instrument) (prior : List SurgeEvent) :
    scanAllFunds db prior = prior ++
      db.bind (fun inst => scanFund defaultSurgeCfg inst.code inst.name inst.series) := by
  induction db generalizing prior with
  | nil => simp [scanAllFunds]
  | cons inst rest ih =>
    have h1 : scanAllFunds (inst :: rest) prior =
        scanAllFunds rest (prior ++ scanFund defaultSurgeCfg inst.code inst.name inst.series) :=
      rfl
    rw [h1, ih]
    simp [List.cons_bind, List.append_assoc]

set_option maxHeartbeats 2000000 in
/-- C10: whenever `calculate_indicators` runs with at least `days + 1` fund
samples, the analysis list has between 1 and 3 labels with exactly one label
from the relative-strength group, the score is at most 6, and the warning
level is one of LOW / MEDIUM / HIGH (never NONE). -/
theorem c10_indicator_bounds (fc : String) (dataF dataI : List Sample) (days : ℕ)
    (h : days + 1 ≤ dataF.length) :
    1 ≤ (calculateIndicators fc dataF dataI days).analysis.length ∧
    (calculateIndicators fc dataF dataI days).analysis.length ≤ 3 ∧
    ((calculateIndicators fc dataF dataI days).analysis.countP
      (fun s => decide (s ∈ rsLabels))) = 1 ∧
    (calculateIndicators fc dataF dataI days).score ≤ 6 ∧
    (calculateIndicators fc dataF dataI days).warning_level ∈
      (["LOW", "MEDIUM", "HIGH"] : List String) := by
  have hn : ¬ dataF.length < days + 1 := by omega
  unfold calculateIndicators
  rw [if_neg hn]
  dsimp only; split_ifs <;> exact ⟨by decide, by decide, by decide, by decide, by decide⟩

/-- Witness for C10 at Scenario A with `days = 5` and an empty benchmark. -/
theorem c10_indicator_bounds_witness :
    5 + 1 ≤ dataA.length ∧
    (1 ≤ (calculateIndicators "000001" dataA [] 5).analysis.length ∧
     (calculateIndicators "000001" dataA [] 5).analysis.length ≤ 3 ∧
     ((calculateIndicators "000001" dataA [] 5).analysis.countP
       (fun s => decide (s ∈ rsLabels))) = 1 ∧
     (calculateIndicators "000001" dataA [] 5).score ≤ 6 ∧
     (calculateIndicators "000001" dataA [] 5).warning_level ∈
       (["LOW", "MEDIUM", "HIGH"] : List String)) :=
  ⟨by decide, c10_indicator_bounds "000001" dataA [] 5 (by decide)⟩
